import Mathlib

/-!
Shallow embedding of make_profiler/lint_makefile.py (Makefile linter):
the line-provenance scanner, target model builder, validator pipeline,
orchestrator and summary reporter, with theorems checking the natural
language specification against this model.

Python strings are modelled as Lean `String`, with the Python `str`
methods re-implemented over `String.toList` so that every definition is
executable and kernel-reducible.  Python lists are Lean lists, Python
`dict`/`set` values are association lists / duplicate-free lists in
insertion order (Python dicts preserve insertion order; the code never
observes `set` iteration order except through `sorted`).
-/

/-- Whitespace characters stripped by Python `str.strip` (ASCII range). -/
def pyIsSpace (c : Char) : Bool :=
  c = ' ' || c = '\t' || c = '\n' || c = '\x0d' || c = '\x0b' || c = '\x0c'

/-- Python `s.strip()`: remove leading and trailing whitespace. -/
def pyStrip (s : String) : String :=
  String.mk (((s.toList.dropWhile pyIsSpace).reverse.dropWhile pyIsSpace).reverse)

/-- Python `s.rstrip()`: remove trailing whitespace. -/
def pyRstrip (s : String) : String :=
  String.mk ((s.toList.reverse.dropWhile pyIsSpace).reverse)

/-- Python `s.startswith(p)`. -/
def pyStartswith (s p : String) : Bool :=
  p.toList.isPrefixOf s.toList

/-- Python `s.endswith(p)`. -/
def pyEndswith (s p : String) : Bool :=
  p.toList.isSuffixOf s.toList

/-- Python `sub in s` on lists of characters (substring test). -/
def listInfix (needle : List Char) : List Char → Bool
  | [] => needle.isPrefixOf []
  | c :: rest => needle.isPrefixOf (c :: rest) || listInfix needle rest

/-- Python `sub in s` for strings. -/
def pyIn (sub s : String) : Bool :=
  listInfix sub.toList s.toList

/-- Python `c in s` for a single character. -/
def charIn (c : Char) (s : String) : Bool :=
  s.toList.contains c

/-- Helper for Python `s.split()`: accumulate the current word (reversed). -/
def pySplitAux : List Char → List Char → List String
  | acc, [] => if acc.isEmpty then [] else [String.mk acc.reverse]
  | acc, c :: rest =>
    if pyIsSpace c then
      if acc.isEmpty then pySplitAux [] rest
      else String.mk acc.reverse :: pySplitAux [] rest
    else pySplitAux (c :: acc) rest

/-- Python `s.split()` with no argument: split on whitespace runs, no empties. -/
def pySplit (s : String) : List String :=
  pySplitAux [] s.toList

/-- Lexicographic comparison of character lists by code point, as Python
compares strings. -/
def listLe : List Char → List Char → Bool
  | [], _ => true
  | _ :: _, [] => false
  | a :: as, b :: bs => if a = b then listLe as bs else decide (a < b)

/-- Python `a <= b` on strings. -/
def pyStrLe (a b : String) : Bool :=
  listLe a.toList b.toList

/-- Stable insertion of one element into a sorted list: the new element is
placed before the first element it compares `le` to, so earlier elements
with an equal key keep their position (stability). -/
def insertBy (le : String → String → Bool) (x : String) : List String → List String
  | [] => [x]
  | y :: ys => if le x y then x :: y :: ys else y :: insertBy le x ys

/-- Stable sort of a list of strings by the comparison `le`.  Python's
`sorted` is a stable ascending sort; a stable sort's output is determined
by the comparison, so insertion sort models it exactly. -/
def sortBy (le : String → String → Bool) : List String → List String
  | [] => []
  | x :: xs => insertBy le x (sortBy le xs)

/-- Python `sorted(xs)` for a list of strings. -/
def pySorted (xs : List String) : List String :=
  sortBy pyStrLe xs

/-- Lookup in an insertion-ordered association list (Python dict `get`). -/
def alookup {α : Type} (m : List (String × α)) (k : String) : Option α :=
  (m.find? (fun kv => kv.1 == k)).map (fun kv => kv.2)

/-- Python `sys.maxsize` on a 64-bit platform. -/
def pyMaxsize : Nat := 9223372036854775807

/-- A machine-readable lint error with useful context (class LintError). -/
structure LintError where
  error_type : String
  message : String
  line_number : Option Nat
  line_text : Option String
deriving DecidableEq, Repr

/-- One declared build target (class TargetData). -/
structure TargetData where
  name : String
  doc : String
  line_number : Option Nat
  line_text : Option String
  grouped : Bool
  deps : List String
  order_only_deps : List String
deriving DecidableEq, Repr

/-- One tagged record of the external parser's token stream.  A token is
processed only when `token_type` is "target"; well-formed target tokens
always carry `target`, `docs` and the two dependency lists (the code
indexes `data["target"]`, `data["docs"]` and `data["deps"]`
unconditionally), while `all_targets` may be absent and `grouped`
defaults to `False` via `data.get`. -/
structure Token where
  token_type : String
  target : String
  all_targets : Option (List String)
  docs : String
  grouped : Bool
  deps : List String × List String
deriving DecidableEq, Repr

/-- The filesystem, seen through the three read-only probes the linter
uses: `os.path.exists`, `os.path.isdir` and `os.getcwd`. -/
structure FS where
  pathExists : String → Bool
  isDir : String → Bool
  cwd : String

/-- Construct a LintError with consistent arguments (_create_error). -/
def _create_error (error_type message : String) (line_number : Option Nat)
    (line_text : Option String) : LintError :=
  ⟨error_type, message, line_number, line_text⟩

/-- Core of the rule-header regex `(?P<target>.+?)(?:&:|:)` from
`_compute_target_lines` and `validate_multiple_targets_colon`: with a
non-greedy group, the match ends at the least position `j >= 1` at which
either a plain `:` or the two characters `&:` occur; `.` never matches a
newline, so hitting one fails the match.  `acc` holds the group read so
far, reversed. -/
def targetHeadAux : List Char → List Char → Option (List Char)
  | _, [] => none
  | acc, c :: rest =>
    if c = ':' ∧ ¬ acc.isEmpty then some acc.reverse
    else if c = '&' ∧ rest.head? = some ':' ∧ ¬ acc.isEmpty then some acc.reverse
    else if c = '\n' then none
    else targetHeadAux (c :: acc) rest

/-- Result of `re.match(r"(?P<target>.+?)(?:&:|:)", line)`: the `target`
group, if the regex matches. -/
def targetHead (line : String) : Option String :=
  (targetHeadAux [] line.toList).map (fun cs => String.mk cs)

/-- In `_compute_target_lines`, the inner `while` that advances past the
continuation lines of a backslash-terminated rule header: the remaining
`(index, line)` pairs are consumed while the current stripped line ends
in a backslash.  Returns the pairs left after the continuation block, or
`none` when the file ends mid-continuation (the Python code then
returns the mapping immediately). -/
def skipCont (stripped : String) : List (Nat × String) → Option (List (Nat × String))
  | [] =>
    if pyEndswith (pyRstrip stripped) "\\" then none else some []
  | p :: rest' =>
    if pyEndswith (pyRstrip stripped) "\\" then skipCont (pyStrip p.2) rest'
    else some (p :: rest')

/-- The function `skipCont` only consumes pairs, so the leftover list is no longer than
the input. -/
theorem skipCont_length_le :
    ∀ (rest : List (Nat × String)) (s : String) (rest' : List (Nat × String)),
      skipCont s rest = some rest' → rest'.length ≤ rest.length := by
  intro rest
  induction rest with
  | nil =>
    intro s rest' h
    unfold skipCont at h
    split at h
    · exact absurd h (by simp)
    · simp at h; simp [h]
  | cons p ps ih =>
    intro s rest' h
    unfold skipCont at h
    split at h
    · exact Nat.le_trans (ih (pyStrip p.2) rest' h) (Nat.le_succ _)
    · simp at h; simp [h]

/-- Length bound for the continuation skip with the empty-list default
(used by the scanners: reaching the end of file mid-continuation and
resuming on an empty remainder both end the scan with the current
mapping). -/
theorem skipCont_getD_length_le (s : String) (rest : List (Nat × String)) :
    ((skipCont s rest).getD []).length ≤ rest.length := by
  cases h : skipCont s rest with
  | none => simp
  | some rest' => simpa using skipCont_length_le rest s rest' h

/-- Python `enumerate`, starting at index `i`. -/
def pyEnumFrom (i : Nat) : List String → List (Nat × String)
  | [] => []
  | l :: ls => (i, l) :: pyEnumFrom (i + 1) ls

/-- Append-only `dict.setdefault`: record `(k, v)` only when `k` has no
binding yet; Python dicts keep insertion order, so a fresh key goes to
the end. -/
def setdefault (m : List (String × Nat × String)) (k : String) (v : Nat × String) :
    List (String × Nat × String) :=
  if m.any (fun kv => kv.1 == k) then m else m ++ [(k, v)]

/-- Main loop of `_compute_target_lines` over the enumerated lines: skip
blank lines, comment lines (unless the raw line starts with `##`) and
recipe lines (leading tab); on a rule-header candidate (a line with `:`
and without `=`) record every whitespace-separated name of the regex
group via `setdefault`, then skip past backslash continuations. -/
def ctlAux : List (Nat × String) → List (String × Nat × String) → List (String × Nat × String)
  | [], m => m
  | (i, line) :: rest, m =>
    let stripped := pyStrip line
    if stripped = "" then ctlAux rest m
    else if stripped.toList.head? = some '#' ∧ ¬ pyStartswith line "##" then ctlAux rest m
    else if pyStartswith line "\t" then ctlAux rest m
    else if charIn ':' line ∧ ¬ charIn '=' line then
      let m' := match targetHead line with
        | some head => (pySplit head).foldl (fun acc nm => setdefault acc nm (i, line)) m
        | none => m
      ctlAux ((skipCont stripped rest).getD []) m'
    else ctlAux rest m
  termination_by ps _ => ps.length
  decreasing_by
  all_goals simp
  all_goals try omega
  have := skipCont_getD_length_le (pyStrip line) rest
  omega

/-- The function `_compute_target_lines`: map each declared target name to
the `(line number, line text)` of its first rule header. -/
def _compute_target_lines (lines : List String) : List (String × Nat × String) :=
  ctlAux (pyEnumFrom 0 lines) []

/-- Companion of `ctlAux` that, instead of folding `setdefault`, emits the
`(name, line number, line text)` header occurrences in scan order.  It
uses exactly the same branch structure and continuation skipping, so it
enumerates precisely the declarations `_compute_target_lines` sees. -/
def headerOccAux : List (Nat × String) → List (String × Nat × String)
  | [] => []
  | (i, line) :: rest =>
    let stripped := pyStrip line
    if stripped = "" then headerOccAux rest
    else if stripped.toList.head? = some '#' ∧ ¬ pyStartswith line "##" then headerOccAux rest
    else if pyStartswith line "\t" then headerOccAux rest
    else if charIn ':' line ∧ ¬ charIn '=' line then
      let occs := match targetHead line with
        | some head => (pySplit head).map (fun nm => (nm, i, line))
        | none => []
      occs ++ headerOccAux ((skipCont stripped rest).getD [])
    else headerOccAux rest
  termination_by ps => ps.length
  decreasing_by
  all_goals simp
  all_goals try omega
  have := skipCont_getD_length_le (pyStrip line) rest
  omega

/-- The sequence of header declarations of a raw line list, in scan order. -/
def headerOcc (lines : List String) : List (String × Nat × String) :=
  headerOccAux (pyEnumFrom 0 lines)

/-- Ordered-set insertion, modelling `set.add` on `deps_targets` (Python
set iteration order is unspecified; the code only observes membership
and `sorted`, so an insertion-ordered duplicate-free list is a faithful
model). -/
def setAdd (s : List String) (x : String) : List String :=
  if x ∈ s then s else s ++ [x]

/-- One `deps_map[item].add(name)` on the reverse-dependency index
(`collections.defaultdict(set)`): create the key with a one-element set
when absent, otherwise add `name` to its value set. -/
def dmAdd (m : List (String × List String)) (k v : String) : List (String × List String) :=
  match m with
  | [] => [(k, [v])]
  | (k', vs) :: rest =>
    if k' = k then (k', if v ∈ vs then vs else vs ++ [v]) :: rest
    else (k', vs) :: dmAdd rest k v

/-- All `deps_map[item].add(name)` calls of the inner `for name in names`
loop. -/
def dmAddAll (m : List (String × List String)) (k : String) : List String → List (String × List String)
  | [] => m
  | v :: vs => dmAddAll (dmAdd m k v) k vs

/-- Python `deps_map.get(dep, [])`: the requester set of a prerequisite
(`.get` does not insert, even on a defaultdict). -/
def dmGet (m : List (String × List String)) (k : String) : List String :=
  (alookup m k).getD []

/-- The `for dep_arr in data["deps"]: for item in dep_arr:` loops of
`parse_targets`: each prerequisite is added to the global `deps` set and
an edge to every co-declared name is added to `deps_map`. -/
def depsFold (names : List String) :
    List String → List String × List (String × List String) →
      List String × List (String × List String)
  | [], p => p
  | item :: items, (dt, dm) => depsFold names items (setAdd dt item, dmAddAll dm item names)

/-- One TargetRecord of `parse_targets`: name-specific provenance from the
line map, documentation, grouped flag and a copy of the two dependency
lists shared by every co-declared name. -/
def mkTargetData (line_map : List (String × Nat × String)) (tok : Token) (nm : String) :
    TargetData :=
  { name := nm
    doc := tok.docs
    line_number := (alookup line_map nm).map (fun p => p.1)
    line_text := (alookup line_map nm).map (fun p => p.2)
    grouped := tok.grouped
    deps := tok.deps.1
    order_only_deps := tok.deps.2 }

/-- Main loop of `parse_targets` over the token stream: skip non-target
tokens; for a target token append one TargetData per effective name
(`all_targets` when present, else the single nominal name) and register
every prerequisite of both dependency arrays. -/
def ptAux (line_map : List (String × Nat × String)) :
    List Token → List TargetData → List String → List (String × List String) →
      List TargetData × List String × List (String × List String)
  | [], td, dt, dm => (td, dt, dm)
  | tok :: rest, td, dt, dm =>
    if tok.token_type ≠ "target" then ptAux line_map rest td dt dm
    else
      let names := tok.all_targets.getD [tok.target]
      let td' := td ++ names.map (mkTargetData line_map tok)
      let p := depsFold names (tok.deps.1 ++ tok.deps.2) (dt, dm)
      ptAux line_map rest td' p.1 p.2

/-- The function `parse_targets`: the TargetData list, the `deps` set and
the reverse-dependency `deps_map` of a token stream, with provenance
from the raw lines when they are supplied and non-empty (Python
truthiness of the `lines` argument). -/
def parse_targets (ast : List Token) (lines : Option (List String)) :
    List TargetData × List String × List (String × List String) :=
  let line_map := match lines with
    | none => []
    | some ls => if ls.isEmpty then [] else _compute_target_lines ls
  ptAux line_map ast [] [] []

/-- Finding of `validate_target_comments`. -/
def mkNoDocError (t : TargetData) : LintError :=
  _create_error "target without comments" ("Target without comments: " ++ t.name)
    t.line_number t.line_text

/-- Loop of `validate_target_comments`: one finding per target whose
documentation is empty (Python falsiness of `t.doc`). -/
def vtcAux : List TargetData → List LintError → Bool → List LintError × Bool
  | [], errors, valid => (errors, valid)
  | t :: ts, errors, valid =>
    if t.doc = "" then vtcAux ts (errors ++ [mkNoDocError t]) false
    else vtcAux ts errors valid

/-- The function `validate_target_comments`, with the errors list
supplied (all claims run the linter with a collecting list; when the
Python argument is `None` only the appends are skipped). -/
def validate_target_comments (targets : List TargetData) (errors : List LintError) :
    List LintError × Bool :=
  vtcAux targets errors true

/-- Finding of `validate_orphan_targets`. -/
def mkOrphanError (t : TargetData) : LintError :=
  _create_error "orphan target"
    (t.name ++ ", is orphan - not marked as [FINAL] and no other target depends on it")
    t.line_number t.line_text

/-- Loop of `validate_orphan_targets`: one finding per target that nothing
depends on and whose documentation lacks the `[FINAL]` marker. -/
def votAux (deps : List String) : List TargetData → List LintError → Bool → List LintError × Bool
  | [], errors, valid => (errors, valid)
  | t :: ts, errors, valid =>
    if t.name ∉ deps ∧ ¬ pyIn "[FINAL]" t.doc then
      votAux deps ts (errors ++ [mkOrphanError t]) false
    else votAux deps ts errors valid

/-- The function `validate_orphan_targets`. -/
def validate_orphan_targets (targets : List TargetData) (deps : List String)
    (errors : List LintError) : List LintError × Bool :=
  votAux deps targets errors true

/-- Python `os.path.isabs` on a POSIX system: absolute paths start with a
slash. -/
def pyIsAbs (path : String) : Bool :=
  pyStartswith path "/"

/-- Python `os.path.join(root, path)` for the shapes used here (`root`
non-empty, `path` relative). -/
def pyJoin (root p : String) : String :=
  if pyEndswith root "/" then root ++ p else root ++ "/" ++ p

/-- The function `_resolve_filesystem_path`: return an absolute path for
dependency lookups. -/
def _resolve_filesystem_path (path root_dir : String) : String :=
  if root_dir = "" ∨ pyIsAbs path then path else pyJoin root_dir path

/-- The condition under which `validate_missing_rules` reports a
prerequisite: it names no declared target and no existing filesystem
entry under the root. -/
def missingCond (targets : List TargetData) (fs : FS) (root_dir dep : String) : Bool :=
  dep ∉ targets.map TargetData.name &&
    !(fs.pathExists (_resolve_filesystem_path dep root_dir))

/-- Python `{t.name: t for t in targets}.get(name)`: in a dict
comprehension a later record with the same name overwrites an earlier
one. -/
def target_map_get (targets : List TargetData) (name : String) : Option TargetData :=
  targets.foldl (fun acc t => if t.name = name then some t else acc) none

/-- Finding of `validate_missing_rules`, attributed to the requester's
record in the target map when there is one. -/
def mkMissingError (targets : List TargetData) (dep parent : String) : LintError :=
  _create_error "missing rule"
    ("No rule to make target '" ++ dep ++ "', needed by '" ++ parent ++ "'")
    ((target_map_get targets parent).bind TargetData.line_number)
    ((target_map_get targets parent).bind TargetData.line_text)

/-- Loop of `validate_missing_rules` over the `deps` set: for a missing
prerequisite, emit one finding per requester in sorted order and clear
the verdict (also when the requester set is empty). -/
def vmrAux (targets : List TargetData) (dm : List (String × List String)) (fs : FS)
    (root_dir : String) :
    List String → List LintError → Bool → List LintError × Bool
  | [], errors, valid => (errors, valid)
  | dep :: ds, errors, valid =>
    if missingCond targets fs root_dir dep then
      vmrAux targets dm fs root_dir ds
        (errors ++ (pySorted (dmGet dm dep)).map (mkMissingError targets dep)) false
    else vmrAux targets dm fs root_dir ds errors valid

/-- The function `validate_missing_rules`. -/
def validate_missing_rules (targets : List TargetData) (deps : List String)
    (dm : List (String × List String)) (fs : FS) (root_dir : String)
    (errors : List LintError) : List LintError × Bool :=
  vmrAux targets dm fs root_dir deps errors true

/-- Findings of `validate_spaces`. -/
def mkTrailingError (i : Nat) (line : String) : LintError :=
  _create_error "trailing spaces" ("Trailing spaces (" ++ Nat.repr i ++ "): " ++ line)
    (some i) (some line)

/-- Finding for a line that indents with spaces instead of a tab. -/
def mkSpaceTabError (i : Nat) (line : String) : LintError :=
  _create_error "space instead of tab" ("Space instead of tab (" ++ Nat.repr i ++ "): " ++ line)
    (some i) (some line)

/-- Loop of `validate_spaces` over the enumerated lines, carrying the
previous raw line: every line with trailing whitespace is reported; the
space-instead-of-tab check is skipped (`continue`) for a line following
a backslash-terminated one. -/
def vsAux : Nat → String → List String → List LintError → Bool → List LintError × Bool
  | _, _, [], errors, valid => (errors, valid)
  | i, prev, line :: rest, errors, valid =>
    let errors1 := if pyRstrip line ≠ line then errors ++ [mkTrailingError i line] else errors
    let valid1 := if pyRstrip line ≠ line then false else valid
    if pyEndswith (pyRstrip prev) "\\" then vsAux (i + 1) line rest errors1 valid1
    else
      let errors2 :=
        if pyStartswith line " " ∧ ¬ pyStartswith line "\t" then errors1 ++ [mkSpaceTabError i line]
        else errors1
      let valid2 := if pyStartswith line " " ∧ ¬ pyStartswith line "\t" then false else valid1
      vsAux (i + 1) line rest errors2 valid2

/-- The function `validate_spaces`. -/
def validate_spaces (lines : List String) (errors : List LintError) : List LintError × Bool :=
  vsAux 0 "" lines errors true

/-- Finding of `validate_multiple_targets_colon`. -/
def mkMultiError (t : TargetData) (head : String) : LintError :=
  _create_error "multiple targets with colon"
    ("Multiple targets defined with ':' may run several times in parallel: " ++ head ++
      ". Use '&:' to group them")
    t.line_number t.line_text

/-- Findings one TargetData contributes to
`validate_multiple_targets_colon`: nothing for a grouped record or one
without line text; otherwise re-parse the header of the declaring line
and warn when it lists more than one name. -/
def multiEmit (t : TargetData) : List LintError :=
  if t.grouped then []
  else match t.line_text with
    | none => []
    | some lt =>
      match targetHead lt with
      | none => []
      | some head => if 1 < (pySplit head).length then [mkMultiError t head] else []

/-- Loop of `validate_multiple_targets_colon`. -/
def vmtAux : List TargetData → List LintError → Bool → List LintError × Bool
  | [], errors, valid => (errors, valid)
  | t :: ts, errors, valid =>
    match multiEmit t with
    | [] => vmtAux ts errors valid
    | es => vmtAux ts (errors ++ es) false

/-- The function `validate_multiple_targets_colon` (the `_deps` and
`_dep_map` parameters are unused, as in the source). -/
def validate_multiple_targets_colon (targets : List TargetData) (_deps : List String)
    (_dep_map : List (String × List String)) (errors : List LintError) :
    List LintError × Bool :=
  vmtAux targets errors true

/-- The Make wildcard and variable metacharacters rejected by
`_looks_like_directory`, in source order. -/
def dirMetachars : List Char := ['$', '*', '?', '[', ']', '%', '(', ')']

/-- The function `_looks_like_directory`: best-effort detection whether a
dependency refers to an actual directory. -/
def _looks_like_directory (path root_dir : String) (fs : FS) : Bool :=
  if path = "" ∨ dirMetachars.any (fun c => charIn c path) then false
  else fs.isDir (_resolve_filesystem_path path root_dir)

/-- Finding of `validate_directory_order_only_dependencies`. -/
def mkDirDepError (t : TargetData) (dep : String) : LintError :=
  _create_error "directory dependency not order-only"
    ("Directory dependency '" ++ dep ++ "' on target '" ++ t.name ++
      "' must be order-only (list it after '|').")
    t.line_number t.line_text

/-- Inner loop of `validate_directory_order_only_dependencies` over one
target's normal prerequisites. -/
def vdoInner (t : TargetData) (fs : FS) (root_dir : String) :
    List String → List LintError → Bool → List LintError × Bool
  | [], errors, valid => (errors, valid)
  | dep :: ds, errors, valid =>
    if dep ∈ t.order_only_deps then vdoInner t fs root_dir ds errors valid
    else if ¬ _looks_like_directory dep root_dir fs then vdoInner t fs root_dir ds errors valid
    else vdoInner t fs root_dir ds (errors ++ [mkDirDepError t dep]) false

/-- Outer loop of `validate_directory_order_only_dependencies`. -/
def vdoAux (fs : FS) (root_dir : String) :
    List TargetData → List LintError → Bool → List LintError × Bool
  | [], errors, valid => (errors, valid)
  | t :: ts, errors, valid =>
    let p := vdoInner t fs root_dir t.deps errors valid
    vdoAux fs root_dir ts p.1 p.2

/-- The function `validate_directory_order_only_dependencies`. -/
def validate_directory_order_only_dependencies (targets : List TargetData) (fs : FS)
    (root_dir : String) (errors : List LintError) : List LintError × Bool :=
  vdoAux fs root_dir targets errors true

/-- The orchestrator `validate`: text-level check first, then the four
target-level checks in the order of `TARGET_VALIDATORS`, then the
directory check, each threading the shared errors list; the verdict is
the conjunction of every validator's verdict.  A missing `root_dir`
defaults to the current working directory. -/
def validate (makefile_lines : List String) (targets : List TargetData)
    (deps : List String) (deps_map : List (String × List String)) (fs : FS)
    (root_dir : Option String) (errors : List LintError) : List LintError × Bool :=
  let root := match root_dir with
    | none => fs.cwd
    | some r => r
  let r1 := validate_spaces makefile_lines errors
  let r2 := validate_orphan_targets targets deps r1.1
  let r3 := validate_target_comments targets r2.1
  let r4 := validate_missing_rules targets deps deps_map fs root r3.1
  let r5 := validate_multiple_targets_colon targets deps deps_map r4.1
  let r6 := validate_directory_order_only_dependencies targets fs root r5.1
  (r6.1, r1.2 && r2.2 && r3.2 && r4.2 && r5.2 && r6.2)

/-- The distinct `error_type` values of a findings list, in order of first
occurrence: the key order of `collections.Counter` applied to the
findings' categories. -/
def counterKeys (errors : List LintError) : List String :=
  errors.foldl (fun ks e => if e.error_type ∈ ks then ks else ks ++ [e.error_type]) []

/-- The count a `collections.Counter` assigns to one category. -/
def countType (errors : List LintError) (ty : String) : Nat :=
  (errors.filter (fun e => e.error_type = ty)).length

/-- The `first_seen` table of `summarize_errors`: for a category, the line
number of its first finding that carries one. -/
def first_seen (errors : List LintError) (ty : String) : Option Nat :=
  match errors.find? (fun e => e.error_type = ty && e.line_number.isSome) with
  | some e => e.line_number
  | none => none

/-- The sort key `order` of `summarize_errors`, with `sys.maxsize` as the
sentinel for a category never seen with a line number. -/
def summaryKey (errors : List LintError) (ty : String) : Nat :=
  (first_seen errors ty).getD pyMaxsize

/-- The function `summarize_errors`: render `"<category>: <count>"` for
every distinct category, sorted by `summaryKey`, joined by `", "`. -/
def summarize_errors (errors : List LintError) : String :=
  String.intercalate ", "
    ((sortBy (fun a b => summaryKey errors a ≤ summaryKey errors b) (counterKeys errors)).map
      (fun ty => ty ++ ": " ++ Nat.repr (countType errors ty)))

/-- Concatenation of the findings an emitter produces per element, in
element order (the shape every validator's output takes). -/
def emitList {α : Type} (f : α → List LintError) : List α → List LintError
  | [] => []
  | x :: xs => f x ++ emitList f xs

/-- A concatenation of lists is empty exactly when both halves are. -/
theorem listIsEmpty_append {α : Type} (a b : List α) :
    (a ++ b).isEmpty = (a.isEmpty && b.isEmpty) := by
  cases a <;> simp

/-- New findings of `validate_target_comments`. -/
def commentsNew (ts : List TargetData) : List LintError :=
  emitList (fun t => if t.doc = "" then [mkNoDocError t] else []) ts

/-- The comments check appends its findings to the supplied list and
clears the verdict exactly when it found something. -/
theorem vtcAux_eq (ts : List TargetData) :
    ∀ errors valid, vtcAux ts errors valid =
      (errors ++ commentsNew ts, valid && (commentsNew ts).isEmpty) := by
  induction ts with
  | nil => intro errors valid; simp [vtcAux, commentsNew, emitList]
  | cons t ts ih =>
    intro errors valid
    by_cases h : t.doc = ""
    · simp [vtcAux, commentsNew, emitList, h, ih, listIsEmpty_append]
    · simp [vtcAux, commentsNew, emitList, h, ih]

/-- New findings of `validate_orphan_targets`. -/
def orphanNew (deps : List String) (ts : List TargetData) : List LintError :=
  emitList (fun t => if t.name ∉ deps ∧ ¬ pyIn "[FINAL]" t.doc then [mkOrphanError t] else []) ts

/-- The orphan check appends its findings to the supplied list and clears
the verdict exactly when it found something. -/
theorem votAux_eq (deps : List String) (ts : List TargetData) :
    ∀ errors valid, votAux deps ts errors valid =
      (errors ++ orphanNew deps ts, valid && (orphanNew deps ts).isEmpty) := by
  induction ts with
  | nil => intro errors valid; simp [votAux, orphanNew, emitList]
  | cons t ts ih =>
    intro errors valid
    simp only [votAux, orphanNew, emitList]
    split_ifs with h
    · rw [ih]; simp [listIsEmpty_append, List.append_assoc, orphanNew]
    · rw [ih]; simp [orphanNew]

/-- New findings of `validate_missing_rules`: per missing prerequisite,
one finding per requester in sorted order. -/
def missingNew (targets : List TargetData) (dm : List (String × List String)) (fs : FS)
    (root_dir : String) (ds : List String) : List LintError :=
  emitList
    (fun d =>
      if missingCond targets fs root_dir d then (pySorted (dmGet dm d)).map (mkMissingError targets d)
      else []) ds

/-- Verdict of `validate_missing_rules`: true when no prerequisite was
missing (independently of whether any finding was emitted). -/
def missingOk (targets : List TargetData) (fs : FS) (root_dir : String)
    (ds : List String) : Bool :=
  ds.all (fun d => !missingCond targets fs root_dir d)

/-- The missing-rule check appends its findings and computes its verdict
from the missing prerequisites alone. -/
theorem vmrAux_eq (targets : List TargetData) (dm : List (String × List String)) (fs : FS)
    (root_dir : String) (ds : List String) :
    ∀ errors valid, vmrAux targets dm fs root_dir ds errors valid =
      (errors ++ missingNew targets dm fs root_dir ds,
        valid && missingOk targets fs root_dir ds) := by
  induction ds with
  | nil => intro errors valid; simp [vmrAux, missingNew, missingOk, emitList]
  | cons d ds ih =>
    intro errors valid
    by_cases h : missingCond targets fs root_dir d = true
    · simp [vmrAux, missingNew, missingOk, emitList, h, ih]
    · simp [vmrAux, missingNew, missingOk, emitList, h, ih]

/-- New findings of `validate_spaces`, carrying the enumeration index and
previous raw line through the scan. -/
def spacesNew : Nat → String → List String → List LintError
  | _, _, [] => []
  | i, prev, line :: rest =>
    (if pyRstrip line ≠ line then [mkTrailingError i line] else []) ++
      (if pyEndswith (pyRstrip prev) "\\" then []
        else if pyStartswith line " " ∧ ¬ pyStartswith line "\t" then [mkSpaceTabError i line]
        else []) ++
      spacesNew (i + 1) line rest

/-- The whitespace check appends its findings to the supplied list and
clears the verdict exactly when it found something. -/
theorem vsAux_eq (ls : List String) :
    ∀ i prev errors valid, vsAux i prev ls errors valid =
      (errors ++ spacesNew i prev ls, valid && (spacesNew i prev ls).isEmpty) := by
  induction ls with
  | nil => intro i prev errors valid; simp [vsAux, spacesNew]
  | cons line rest ih =>
    intro i prev errors valid
    simp only [vsAux, spacesNew]
    split_ifs with h1 h2 h3 h4 h5 h6 <;>
      simp [ih, listIsEmpty_append, List.append_assoc]

/-- New findings of `validate_multiple_targets_colon`. -/
def multiNew (ts : List TargetData) : List LintError :=
  emitList multiEmit ts

/-- The multi-target check appends its findings to the supplied list and
clears the verdict exactly when it found something. -/
theorem vmtAux_eq (ts : List TargetData) :
    ∀ errors valid, vmtAux ts errors valid =
      (errors ++ multiNew ts, valid && (multiNew ts).isEmpty) := by
  induction ts with
  | nil => intro errors valid; simp [vmtAux, multiNew, emitList]
  | cons t ts ih =>
    intro errors valid
    cases h : multiEmit t with
    | nil => simp [vmtAux, multiNew, emitList, h, ih]
    | cons e es => simp [vmtAux, multiNew, emitList, h, ih, listIsEmpty_append]

/-- Findings one prerequisite of one target contributes to the directory
check. -/
def dirEmit (t : TargetData) (fs : FS) (root_dir : String) (dep : String) : List LintError :=
  if dep ∈ t.order_only_deps then []
  else if ¬ _looks_like_directory dep root_dir fs then []
  else [mkDirDepError t dep]

/-- New findings of `validate_directory_order_only_dependencies`. -/
def dirNew (fs : FS) (root_dir : String) (ts : List TargetData) : List LintError :=
  emitList (fun t => emitList (dirEmit t fs root_dir) t.deps) ts

/-- The inner directory-check loop appends its findings and clears the
verdict exactly when it found something. -/
theorem vdoInner_eq (t : TargetData) (fs : FS) (root_dir : String) (ds : List String) :
    ∀ errors valid, vdoInner t fs root_dir ds errors valid =
      (errors ++ emitList (dirEmit t fs root_dir) ds,
        valid && (emitList (dirEmit t fs root_dir) ds).isEmpty) := by
  induction ds with
  | nil => intro errors valid; simp [vdoInner, emitList]
  | cons dep ds ih =>
    intro errors valid
    by_cases h1 : dep ∈ t.order_only_deps
    · simp [vdoInner, emitList, dirEmit, h1, ih]
    · by_cases h2 : _looks_like_directory dep root_dir fs = true
      · simp [vdoInner, emitList, dirEmit, h1, h2, ih, listIsEmpty_append]
      · simp [vdoInner, emitList, dirEmit, h1, h2, ih]

/-- The directory check appends its findings to the supplied list and
clears the verdict exactly when it found something. -/
theorem vdoAux_eq (fs : FS) (root_dir : String) (ts : List TargetData) :
    ∀ errors valid, vdoAux fs root_dir ts errors valid =
      (errors ++ dirNew fs root_dir ts, valid && (dirNew fs root_dir ts).isEmpty) := by
  induction ts with
  | nil => intro errors valid; simp [vdoAux, dirNew, emitList]
  | cons t ts ih =>
    intro errors valid
    simp [vdoAux, dirNew, emitList, vdoInner_eq, ih, listIsEmpty_append,
      List.append_assoc, Bool.and_assoc]

/-- The root directory `validate` resolves: the caller-supplied one, or
the current working directory when unset. -/
def rootOf (root_dir : Option String) (fs : FS) : String :=
  match root_dir with
  | none => fs.cwd
  | some r => r

/-- All new findings of one `validate` run, in validator-execution order:
whitespace, orphan, comments, missing-rule, multi-target, directory. -/
def validateFindings (makefile_lines : List String) (targets : List TargetData)
    (deps : List String) (deps_map : List (String × List String)) (fs : FS)
    (root : String) : List LintError :=
  spacesNew 0 "" makefile_lines ++ orphanNew deps targets ++ commentsNew targets ++
    missingNew targets deps_map fs root deps ++ multiNew targets ++ dirNew fs root targets

/-- Verdict of one `validate` run. -/
def validateOk (makefile_lines : List String) (targets : List TargetData)
    (deps : List String) (deps_map : List (String × List String)) (fs : FS)
    (root : String) : Bool :=
  (spacesNew 0 "" makefile_lines).isEmpty && (orphanNew deps targets).isEmpty &&
    (commentsNew targets).isEmpty && missingOk targets fs root deps &&
    (multiNew targets).isEmpty && (dirNew fs root targets).isEmpty

/-- The orchestrator `validate` appends all its validators' findings, in execution order,
to the supplied errors list, and its verdict is the conjunction of the
validators' verdicts. -/
theorem validate_eq (makefile_lines : List String) (targets : List TargetData)
    (deps : List String) (deps_map : List (String × List String)) (fs : FS)
    (root_dir : Option String) (errors : List LintError) :
    validate makefile_lines targets deps deps_map fs root_dir errors =
      (errors ++
          validateFindings makefile_lines targets deps deps_map fs (rootOf root_dir fs),
        validateOk makefile_lines targets deps deps_map fs (rootOf root_dir fs)) := by
  cases root_dir <;>
    simp [validate, rootOf, validateFindings, validateOk, validate_spaces,
      validate_orphan_targets, validate_target_comments, validate_missing_rules,
      validate_multiple_targets_colon, validate_directory_order_only_dependencies,
      vsAux_eq, votAux_eq, vtcAux_eq, vmrAux_eq, vmtAux_eq, vdoAux_eq,
      List.append_assoc, Bool.and_assoc]

/-- Claim C10: validate only appends to the supplied errors list — the
pre-existing findings stay as an untouched prefix, the new findings are
exactly those of a run started with an empty list, and the verdict does
not depend on the supplied list.  (Immutability of the raw lines, the
target records and the dependency index is inherent to this pure
embedding: every validator reads them only.) -/
theorem validate_frame (makefile_lines : List String) (targets : List TargetData)
    (deps : List String) (deps_map : List (String × List String)) (fs : FS)
    (root_dir : Option String) (errors : List LintError) :
    (validate makefile_lines targets deps deps_map fs root_dir errors).1 =
        errors ++ (validate makefile_lines targets deps deps_map fs root_dir []).1 ∧
      (validate makefile_lines targets deps deps_map fs root_dir errors).2 =
        (validate makefile_lines targets deps deps_map fs root_dir []).2 := by
  simp [validate_eq]

/-- Inserting into a list never yields the empty list. -/
theorem insertBy_ne_nil (le : String → String → Bool) (x : String) (l : List String) :
    insertBy le x l ≠ [] := by
  cases l with
  | nil => simp [insertBy]
  | cons y ys => simp only [insertBy]; split <;> simp

/-- A sort is empty exactly when its input is. -/
theorem sortBy_eq_nil_iff (le : String → String → Bool) (l : List String) :
    sortBy le l = [] ↔ l = [] := by
  cases l with
  | nil => simp [sortBy]
  | cons x xs => simp [sortBy, insertBy_ne_nil]

/-- A filesystem on which nothing exists. -/
def fsEmpty : FS := ⟨fun _ => false, fun _ => false, "/"⟩

/-- Claim C1 counterexample: with an empty target list, `deps = {"x"}`
and an empty `deps_map`, the missing prerequisite `x` has no requester,
so `validate_missing_rules` clears the verdict without emitting any
finding: `validate` returns `False` on a still-empty errors list,
refuting «returns True if and only if the errors list is still empty». -/
theorem validate_verdict_counterexample :
    ¬ (((validate [] [] ["x"] [] fsEmpty (some "/r") []).2 = true) ↔
        ((validate [] [] ["x"] [] fsEmpty (some "/r") []).1 = [])) := by
  decide

/-- Under coverage of the missing prerequisites by `deps_map`, the
missing-rule verdict is clean exactly when the check emitted nothing. -/
theorem missingOk_iff_missingNew_nil (targets : List TargetData)
    (dm : List (String × List String)) (fs : FS) (root : String) :
    ∀ ds : List String,
      (∀ d ∈ ds, missingCond targets fs root d = true → dmGet dm d ≠ []) →
      (missingOk targets fs root ds = true ↔ missingNew targets dm fs root ds = []) := by
  intro ds
  induction ds with
  | nil => intro _; simp [missingOk, missingNew, emitList]
  | cons d ds ih =>
    intro h
    have hd := h d (by simp)
    have hds : ∀ x ∈ ds, missingCond targets fs root x = true → dmGet dm x ≠ [] :=
      fun x hx => h x (List.mem_cons_of_mem d hx)
    by_cases hc : missingCond targets fs root d = true
    · have h1 : dmGet dm d ≠ [] := hd hc
      have h2 : pySorted (dmGet dm d) ≠ [] := by
        intro he
        exact h1 ((sortBy_eq_nil_iff pyStrLe (dmGet dm d)).mp he)
      constructor
      · intro he
        exact absurd he (by simp [missingOk, hc])
      · intro he
        simp only [missingNew, emitList, hc, if_true, List.append_eq_nil,
          List.map_eq_nil_iff] at he
        exact absurd he.1 h2
    · have hcf : missingCond targets fs root d = false := by
        cases hmc : missingCond targets fs root d
        · rfl
        · exact absurd hmc hc
      have e1 : missingOk targets fs root (d :: ds) = missingOk targets fs root ds := by
        simp [missingOk, hcf]
      have e2 : missingNew targets dm fs root (d :: ds) = missingNew targets dm fs root ds := by
        simp [missingNew, emitList, hcf]
      rw [e1, e2]
      exact ih hds

/-- Claim C1 (amended): starting from an empty errors list, `validate`
runs every check and returns `True` if and only if the errors list is
still empty afterwards, provided every missing prerequisite in `deps`
has at least one requester in `deps_map` (as the dependency index built
by `parse_targets` guarantees); without that proviso the missing-rule
check can clear the verdict while emitting no finding. -/
theorem validate_verdict_amended (makefile_lines : List String) (targets : List TargetData)
    (deps : List String) (deps_map : List (String × List String)) (fs : FS) (root : String)
    (hcov : ∀ d ∈ deps, missingCond targets fs root d = true → dmGet deps_map d ≠ []) :
    ((validate makefile_lines targets deps deps_map fs (some root) []).2 = true) ↔
      ((validate makefile_lines targets deps deps_map fs (some root) []).1 = []) := by
  have hm := missingOk_iff_missingNew_nil targets deps_map fs root deps hcov
  rw [validate_eq]
  simp only [validateOk, validateFindings, rootOf, List.nil_append, Bool.and_eq_true,
    List.isEmpty_iff, List.append_eq_nil]
  rw [hm]

/-- Claim C1 amended, witnessed at a concrete run: one target `all`
depending on the absent prerequisite `foo`, requester recorded in the
dependency index. -/
theorem validate_verdict_amended_witness :
    (∀ d ∈ ["foo"],
        missingCond [⟨"all", "d", some 0, some "all: foo", false, ["foo"], []⟩] fsEmpty "/r" d =
            true →
          dmGet [("foo", ["all"])] d ≠ []) ∧
      (((validate ["all: foo"] [⟨"all", "d", some 0, some "all: foo", false, ["foo"], []⟩]
              ["foo"] [("foo", ["all"])] fsEmpty (some "/r") []).2 = true) ↔
        ((validate ["all: foo"] [⟨"all", "d", some 0, some "all: foo", false, ["foo"], []⟩]
              ["foo"] [("foo", ["all"])] fsEmpty (some "/r") []).1 = [])) :=
  ⟨by decide,
    validate_verdict_amended ["all: foo"]
      [⟨"all", "d", some 0, some "all: foo", false, ["foo"], []⟩]
      ["foo"] [("foo", ["all"])] fsEmpty "/r" (by decide)⟩

/-- The Python substring test agrees with the infix relation. -/
theorem listInfix_iff (n : List Char) : ∀ l, listInfix n l = true ↔ n <:+: l := by
  intro l
  induction l with
  | nil => simp [listInfix, List.isPrefixOf_iff_prefix, List.prefix_nil, List.infix_nil]
  | cons c cs ih => simp [listInfix, List.isPrefixOf_iff_prefix, List.infix_cons_iff, ih]

/-- Python `sub in s` agrees with the infix relation on the characters. -/
theorem pyIn_iff (sub s : String) : pyIn sub s = true ↔ sub.toList <:+: s.toList :=
  listInfix_iff sub.toList s.toList

/-- Emitters that agree pointwise produce the same findings. -/
theorem emitList_congr {α : Type} (f g : α → List LintError) (h : ∀ x, f x = g x) :
    ∀ l, emitList f l = emitList g l := by
  intro l
  induction l with
  | nil => rfl
  | cons x xs ih => simp [emitList, h x, ih]

/-- Claim C6: `validate_orphan_targets` appends, after the supplied
findings, exactly one `orphan target` finding — attributed to the
record's provenance by `mkOrphanError` — for each target record whose
name no target depends on and whose documentation does not contain the
substring `[FINAL]`, and no finding for any other record (so adding
`[FINAL]` to the documentation or referencing the name as a
prerequisite suppresses it). -/
theorem validate_orphan_targets_spec (targets : List TargetData) (deps : List String)
    (errors : List LintError) :
    (validate_orphan_targets targets deps errors).1 =
      errors ++
        emitList
          (fun t =>
            if t.name ∉ deps ∧ ¬ ("[FINAL]".toList <:+: t.doc.toList) then [mkOrphanError t]
            else [])
          targets := by
  have hpt : ∀ t : TargetData,
      (if t.name ∉ deps ∧ ¬ pyIn "[FINAL]" t.doc then [mkOrphanError t] else []) =
        (if t.name ∉ deps ∧ ¬ ("[FINAL]".toList <:+: t.doc.toList) then [mkOrphanError t]
          else []) := by
    intro t
    exact if_congr (and_congr_right' (not_congr (pyIn_iff "[FINAL]" t.doc))) rfl rfl
  show (votAux deps targets errors true).1 = _
  rw [votAux_eq]
  simp only [orphanNew]
  rw [emitList_congr _ _ hpt targets]

/-- Claim C7: `validate_multiple_targets_colon` appends, after the
supplied findings, exactly the findings `multiEmit` assigns per record,
and `multiEmit` produces a (single `multiple targets with colon`)
finding exactly when the record is not flagged grouped, has a declaring
line text, and re-parsing that line's head — the portion before the
first `&:` or `:` — yields more than one whitespace-separated name; in
particular a grouped record never produces one. -/
theorem validate_multiple_targets_colon_spec (targets : List TargetData)
    (deps : List String) (dm : List (String × List String)) (errors : List LintError) :
    (validate_multiple_targets_colon targets deps dm errors).1 =
        errors ++ emitList multiEmit targets ∧
      ∀ t : TargetData,
        (multiEmit t ≠ [] ↔
          t.grouped = false ∧
            ∃ lt head, t.line_text = some lt ∧ targetHead lt = some head ∧
              1 < (pySplit head).length) := by
  constructor
  · show (vmtAux targets errors true).1 = _
    rw [vmtAux_eq]
    rfl
  · intro t
    cases hg : t.grouped
    · cases hlt : t.line_text with
      | none => simp [multiEmit, hg, hlt]
      | some lt =>
        cases hth : targetHead lt with
        | none => simp [multiEmit, hg, hlt, hth]
        | some head =>
          by_cases hlen : 1 < (pySplit head).length
          · simp [multiEmit, hg, hlt, hth, hlen]
          · simp [multiEmit, hg, hlt, hth, hlen]
    · simp [multiEmit, hg]

/-- Unfolding of `_looks_like_directory`: it accepts exactly the
non-empty, metacharacter-free paths that resolve to a directory. -/
theorem looks_like_directory_iff (dep root : String) (fs : FS) :
    _looks_like_directory dep root fs = true ↔
      dep ≠ "" ∧ (∀ c ∈ dirMetachars, charIn c dep = false) ∧
        fs.isDir (_resolve_filesystem_path dep root) = true := by
  unfold _looks_like_directory
  by_cases h : dep = "" ∨ dirMetachars.any (fun c => charIn c dep) = true
  · rw [if_pos h]
    constructor
    · intro hf; exact absurd hf (by simp)
    · rintro ⟨hne, hall, _⟩
      exfalso
      rcases h with h | h
      · exact hne h
      · rcases List.any_eq_true.mp h with ⟨c, hc, hcin⟩
        rw [hall c hc] at hcin
        cases hcin
  · rw [if_neg h]
    rw [not_or] at h
    obtain ⟨h1, h2⟩ := h
    constructor
    · intro hd
      refine ⟨h1, ?_, hd⟩
      intro c hc
      by_contra hcc
      exact h2 (List.any_eq_true.mpr ⟨c, hc, by
        cases hb : charIn c dep
        · exact absurd hb hcc
        · rfl⟩)
    · rintro ⟨_, _, hd⟩; exact hd

/-- Claim C8 (amended): `validate_directory_order_only_dependencies`
appends, after the supplied findings, exactly one `directory dependency
not order-only` finding per target and normal prerequisite that is not
in that target's order-only list, is non-empty, contains none of the
metacharacters `$ * ? [ ] % ( )`, and resolves (relative to the root,
absolute paths as-is) to an existing directory — and no finding
otherwise, so listing the path as order-only suppresses it.  The
non-emptiness condition is the amendment: the code rejects an empty
prerequisite before probing the filesystem. -/
theorem validate_directory_spec (targets : List TargetData) (fs : FS) (root : String)
    (errors : List LintError) :
    (validate_directory_order_only_dependencies targets fs root errors).1 =
      errors ++
        emitList
          (fun t =>
            emitList
              (fun dep =>
                if dep ∉ t.order_only_deps ∧ dep ≠ "" ∧
                    (∀ c ∈ dirMetachars, charIn c dep = false) ∧
                    fs.isDir (_resolve_filesystem_path dep root) = true
                then [mkDirDepError t dep]
                else [])
              t.deps)
          targets := by
  show (vdoAux fs root targets errors true).1 = _
  rw [vdoAux_eq]
  simp only [dirNew]
  congr 1
  refine emitList_congr _ _ (fun t => ?_) targets
  refine emitList_congr _ _ (fun dep => ?_) t.deps
  by_cases h1 : dep ∈ t.order_only_deps
  · simp [dirEmit, h1]
  · by_cases h2 : _looks_like_directory dep root fs = true
    · obtain ⟨hne, hall, hd⟩ := (looks_like_directory_iff dep root fs).mp h2
      rw [show dirEmit t fs root dep = [mkDirDepError t dep] from by simp [dirEmit, h1, h2]]
      rw [if_pos ⟨h1, hne, hall, hd⟩]
    · rw [show dirEmit t fs root dep = [] from by simp [dirEmit, h1, h2]]
      rw [if_neg (by
        rintro ⟨_, hne, hall, hd⟩
        exact h2 ((looks_like_directory_iff dep root fs).mpr ⟨hne, hall, hd⟩))]

/-- The fixed target record of the C8 counterexample: one empty-string
normal prerequisite, nothing order-only. -/
def dirCexTarget : TargetData := ⟨"t", "", none, none, false, [""], []⟩

/-- A filesystem on which every path exists and is a directory. -/
def fsAll : FS := ⟨fun _ => true, fun _ => true, "/"⟩

/-- Claim C8 counterexample: the empty prerequisite satisfies every
condition of the claim — it is not order-only, contains no
metacharacter, and resolves to an existing directory — yet
`validate_directory_order_only_dependencies` produces no finding,
because `_looks_like_directory` rejects an empty path first. -/
theorem validate_directory_counterexample :
    ("" ∉ dirCexTarget.order_only_deps ∧ (∀ c ∈ dirMetachars, charIn c "" = false) ∧
        fsAll.isDir (_resolve_filesystem_path "" "/r") = true) ∧
      (validate_directory_order_only_dependencies [dirCexTarget] fsAll "/r" []).1 = [] := by
  decide

/-- Stable insertion permutes: the result is the element plus the list. -/
theorem insertBy_perm (le : String → String → Bool) (x : String) :
    ∀ l, (insertBy le x l).Perm (x :: l) := by
  intro l
  induction l with
  | nil => exact List.Perm.refl _
  | cons y ys ih =>
    simp only [insertBy]
    split
    · exact List.Perm.refl _
    · exact (ih.cons y).trans (List.Perm.swap x y ys)

/-- A sort is a permutation of its input. -/
theorem sortBy_perm (le : String → String → Bool) : ∀ l, (sortBy le l).Perm l := by
  intro l
  induction l with
  | nil => exact List.Perm.refl _
  | cons x xs ih => exact (insertBy_perm le x (sortBy le xs)).trans (ih.cons x)

/-- A requester set pulled out of a duplicate-free index is duplicate
free. -/
theorem dmGet_nodup (dm : List (String × List String))
    (hnd : ∀ kv ∈ dm, kv.2.Nodup) (d : String) : (dmGet dm d).Nodup := by
  unfold dmGet alookup
  cases hf : dm.find? (fun kv => kv.1 == d) with
  | none => simp
  | some kv =>
    simp only [Option.map_some', Option.getD_some]
    exact hnd kv (List.mem_of_find?_eq_some hf)

/-- Claim C2: `validate_missing_rules` appends, after the supplied
findings, exactly — for each prerequisite of `deps` that names no
declared target and no existing path under the root — one `missing
rule` finding per requester recorded in `deps_map`, in sorted order,
each attributed (by `mkMissingError`) to that requester's record in the
target map; a prerequisite that is a declared target name or exists on
disk contributes nothing.  The sorted requester list is a
permutation of the recorded one, and duplicate free whenever the index's
value sets are (as Python sets are), so each distinct requester yields
exactly one finding. -/
theorem validate_missing_rules_spec (targets : List TargetData) (deps : List String)
    (dm : List (String × List String)) (fs : FS) (root : String) (errors : List LintError) :
    ((validate_missing_rules targets deps dm fs root errors).1 =
        errors ++
          emitList
            (fun d =>
              if missingCond targets fs root d = true then
                (pySorted (dmGet dm d)).map (mkMissingError targets d)
              else [])
            deps) ∧
      (∀ d, (pySorted (dmGet dm d)).Perm (dmGet dm d)) ∧
      ((∀ kv ∈ dm, kv.2.Nodup) → ∀ d, (pySorted (dmGet dm d)).Nodup) := by
  refine ⟨?_, ?_, ?_⟩
  · show (vmrAux targets dm fs root deps errors true).1 = _
    rw [vmrAux_eq]
    rfl
  · intro d
    exact sortBy_perm pyStrLe (dmGet dm d)
  · intro hnd d
    exact ((sortBy_perm pyStrLe (dmGet dm d)).nodup_iff).mpr (dmGet_nodup dm hnd d)

/-- Claim C2 witnessed at a concrete index with two requesters. -/
theorem validate_missing_rules_spec_witness :
    (∀ kv ∈ [("foo", ["base", "all"])], kv.2.Nodup) ∧
      (pySorted (dmGet [("foo", ["base", "all"])] "foo")).Nodup :=
  ⟨by decide,
    (validate_missing_rules_spec [] [] [("foo", ["base", "all"])] fsEmpty "/r" []).2.2
      (by decide) "foo"⟩

/-- Membership survives an ordered-set insertion. -/
theorem mem_setAdd_of_mem {s : List String} {y : String} (x : String) (h : y ∈ s) :
    y ∈ setAdd s x := by
  unfold setAdd
  split
  · exact h
  · exact List.mem_append_left _ h

/-- The inserted element is a member of an ordered-set insertion. -/
theorem mem_setAdd_self (s : List String) (x : String) : x ∈ setAdd s x := by
  unfold setAdd
  split
  · assumption
  · exact List.mem_append_right _ (List.mem_singleton.mpr rfl)

/-- One `deps_map` edge insertion preserves the index invariant: every
key stays in the name universe `S` (which contains the inserted key)
and every value set stays non-empty. -/
theorem dmAdd_inv (S : List String) (k v : String) :
    ∀ m : List (String × List String), k ∈ S →
      (∀ kv ∈ m, kv.1 ∈ S ∧ kv.2 ≠ []) →
      ∀ kv ∈ dmAdd m k v, kv.1 ∈ S ∧ kv.2 ≠ [] := by
  intro m
  induction m with
  | nil =>
    intro hk _ kv hkv
    simp only [dmAdd, List.mem_singleton] at hkv
    subst hkv
    exact ⟨hk, by simp⟩
  | cons p ps ih =>
    intro hk hm kv hkv
    rw [show dmAdd (p :: ps) k v =
        (if p.1 = k then (p.1, if v ∈ p.2 then p.2 else p.2 ++ [v]) :: ps
          else p :: dmAdd ps k v) from by
      cases p with
      | mk k' vs => rfl] at hkv
    split at hkv
    · rcases List.mem_cons.mp hkv with h | h
      · subst h
        refine ⟨(hm p (List.mem_cons_self p ps)).1, ?_⟩
        split
        · exact (hm p (List.mem_cons_self p ps)).2
        · simp
      · exact hm kv (List.mem_cons_of_mem p h)
    · rcases List.mem_cons.mp hkv with h | h
      · subst h
        exact hm kv (List.mem_cons_self kv ps)
      · exact ih hk (fun q hq => hm q (List.mem_cons_of_mem p hq)) kv h

/-- A run of edge insertions for one prerequisite preserves the index
invariant. -/
theorem dmAddAll_inv (S : List String) (k : String) :
    ∀ (names : List String) (m : List (String × List String)), k ∈ S →
      (∀ kv ∈ m, kv.1 ∈ S ∧ kv.2 ≠ []) →
      ∀ kv ∈ dmAddAll m k names, kv.1 ∈ S ∧ kv.2 ≠ [] := by
  intro names
  induction names with
  | nil => intro m _ hm kv hkv; exact hm kv hkv
  | cons v vs ih =>
    intro m hk hm kv hkv
    exact ih (dmAdd m k v) hk (dmAdd_inv S k v m hk hm) kv hkv

/-- The prerequisite-registration loop of one token preserves the index
invariant: every key of the map is in the accumulated `deps` set and
every value set is non-empty. -/
theorem depsFold_inv (names : List String) :
    ∀ (items dt : List String) (dm : List (String × List String)),
      (∀ kv ∈ dm, kv.1 ∈ dt ∧ kv.2 ≠ []) →
      ∀ kv ∈ (depsFold names items (dt, dm)).2,
        kv.1 ∈ (depsFold names items (dt, dm)).1 ∧ kv.2 ≠ [] := by
  intro items
  induction items with
  | nil => intro dt dm hm kv hkv; exact hm kv hkv
  | cons item rest ih =>
    intro dt dm hm kv hkv
    rw [show depsFold names (item :: rest) (dt, dm) =
        depsFold names rest (setAdd dt item, dmAddAll dm item names) from rfl] at hkv ⊢
    refine ih (setAdd dt item) (dmAddAll dm item names) ?_ kv hkv
    exact dmAddAll_inv (setAdd dt item) item names dm (mem_setAdd_self dt item)
      (fun q hq => ⟨mem_setAdd_of_mem item (hm q hq).1, (hm q hq).2⟩)

/-- The token loop of `parse_targets` preserves the index invariant. -/
theorem ptAux_inv (line_map : List (String × Nat × String)) :
    ∀ (toks : List Token) (td : List TargetData) (dt : List String)
      (dm : List (String × List String)),
      (∀ kv ∈ dm, kv.1 ∈ dt ∧ kv.2 ≠ []) →
      ∀ kv ∈ (ptAux line_map toks td dt dm).2.2,
        kv.1 ∈ (ptAux line_map toks td dt dm).2.1 ∧ kv.2 ≠ [] := by
  intro toks
  induction toks with
  | nil => intro td dt dm hm kv hkv; exact hm kv hkv
  | cons tok rest ih =>
    intro td dt dm hm kv hkv
    by_cases ht : tok.token_type ≠ "target"
    · rw [show ptAux line_map (tok :: rest) td dt dm = ptAux line_map rest td dt dm from by
        simp [ptAux, ht]] at hkv ⊢
      exact ih td dt dm hm kv hkv
    · rw [show ptAux line_map (tok :: rest) td dt dm =
          ptAux line_map rest
            (td ++ (tok.all_targets.getD [tok.target]).map (mkTargetData line_map tok))
            (depsFold (tok.all_targets.getD [tok.target]) (tok.deps.1 ++ tok.deps.2) (dt, dm)).1
            (depsFold (tok.all_targets.getD [tok.target]) (tok.deps.1 ++ tok.deps.2) (dt, dm)).2
          from by simp [ptAux, ht]] at hkv ⊢
      exact ih _ _ _ (depsFold_inv _ _ dt dm hm) kv hkv

/-- Claim C9: the dependency index `parse_targets` returns satisfies the
invariant — every key of `deps_map` is a member of the `deps` set, and
every value set of `deps_map` is non-empty. -/
theorem parse_targets_index_invariant (ast : List Token) (lines : Option (List String)) :
    ∀ kv ∈ (parse_targets ast lines).2.2,
      kv.1 ∈ (parse_targets ast lines).2.1 ∧ kv.2 ≠ [] := by
  intro kv hkv
  exact ptAux_inv _ ast [] [] [] (by simp) kv hkv

/-- Claim C9 witnessed on a one-token stream with a normal and an
order-only prerequisite. -/
theorem parse_targets_index_invariant_witness :
    (("x", ["a"]) ∈ (parse_targets [⟨"target", "a", none, "", false, (["x"], ["y"])⟩] none).2.2) ∧
      ("x" ∈ (parse_targets [⟨"target", "a", none, "", false, (["x"], ["y"])⟩] none).2.1 ∧
        ["a"] ≠ []) :=
  ⟨by decide,
    parse_targets_index_invariant [⟨"target", "a", none, "", false, (["x"], ["y"])⟩] none
      ("x", ["a"]) (by decide)⟩

/-- Folding `setdefault` over an occurrence list (the effect of the
header branch of `ctlAux` on the mapping). -/
def applyOccs (occs : List (String × Nat × String)) (m : List (String × Nat × String)) :
    List (String × Nat × String) :=
  occs.foldl (fun acc o => setdefault acc o.1 o.2) m

/-- A key occurs among an association list's keys exactly when `find?`
locates a binding. -/
theorem any_key_eq_isSome_find? {α : Type} (m : List (String × α)) (k : String) :
    (m.any fun kv => kv.1 == k) = (m.find? fun kv => kv.1 == k).isSome := by
  induction m with
  | nil => rfl
  | cons p ps ih => cases hb : p.1 == k <;> simp [List.any_cons, List.find?, hb, ih]

/-- Lookup distributes over list append, first list first. -/
theorem alookup_append {α : Type} (m l : List (String × α)) (k : String) :
    alookup (m ++ l) k = (alookup m k).or (alookup l k) := by
  unfold alookup
  rw [List.find?_append]
  cases m.find? (fun kv => kv.1 == k) <;> simp

/-- A `setdefault` never disturbs an existing binding. -/
theorem alookup_setdefault_of_some (m : List (String × Nat × String)) (a : String)
    (b : Nat × String) (k : String) (v : Nat × String) (h : alookup m k = some v) :
    alookup (setdefault m a b) k = some v := by
  unfold setdefault
  split
  · exact h
  · rw [alookup_append, h]; rfl

/-- Lookup after a `setdefault` fold: an existing binding wins, else the
first occurrence of the key in the fold's occurrence list. -/
theorem alookup_applyOccs (occs : List (String × Nat × String)) :
    ∀ (m : List (String × Nat × String)) (k : String),
      alookup (applyOccs occs m) k =
        (alookup m k).or (((occs.find? fun o => o.1 == k)).map fun o => o.2) := by
  induction occs with
  | nil => intro m k; simp [applyOccs]
  | cons o os ih =>
    intro m k
    rw [show applyOccs (o :: os) m = applyOccs os (setdefault m o.1 o.2) from rfl]
    rw [ih]
    cases ha : alookup m k with
    | some v =>
      rw [alookup_setdefault_of_some m o.1 o.2 k v ha]
      rfl
    | none =>
      have hfind : m.find? (fun kv => kv.1 == k) = none := by
        unfold alookup at ha
        exact Option.map_eq_none'.mp ha
      cases hb : o.1 == k with
      | true =>
        have he : o.1 = k := by
          have := hb
          exact eq_of_beq hb
        have hany : (m.any fun kv => kv.1 == o.1) = false := by
          rw [any_key_eq_isSome_find?]
          simp only [he, hfind]
          rfl
        have h1 : alookup (setdefault m o.1 o.2) k = some o.2 := by
          unfold setdefault
          rw [if_neg (by rw [hany]; exact Bool.false_ne_true)]
          rw [alookup_append, ha, Option.none_or]
          simp [alookup, List.find?, hb]
        rw [h1]
        simp [List.find?, hb]
      | false =>
        have h1 : alookup (setdefault m o.1 o.2) k = none := by
          unfold setdefault
          split
          · exact ha
          · rw [alookup_append, ha, Option.none_or]
            simp [alookup, List.find?, hb]
        rw [h1]
        simp [List.find?, hb]


/-- Folding occurrences splits along append. -/
theorem applyOccs_append (a b : List (String × Nat × String))
    (m : List (String × Nat × String)) :
    applyOccs (a ++ b) m = applyOccs b (applyOccs a m) := by
  unfold applyOccs
  exact List.foldl_append _ _ a b

/-- One-step unfolding of the scanner loop. -/
theorem ctlAux_cons (i : Nat) (line : String) (rest : List (Nat × String))
    (m : List (String × Nat × String)) :
    ctlAux ((i, line) :: rest) m =
      (if pyStrip line = "" then ctlAux rest m
       else if (pyStrip line).toList.head? = some '#' ∧ ¬ pyStartswith line "##" then
         ctlAux rest m
       else if pyStartswith line "\t" then ctlAux rest m
       else if charIn ':' line ∧ ¬ charIn '=' line then
         ctlAux ((skipCont (pyStrip line) rest).getD [])
           (match targetHead line with
             | some head => (pySplit head).foldl (fun acc nm => setdefault acc nm (i, line)) m
             | none => m)
       else ctlAux rest m) := by
  simp only [ctlAux]

/-- One-step unfolding of the occurrence scanner. -/
theorem headerOccAux_cons (i : Nat) (line : String) (rest : List (Nat × String)) :
    headerOccAux ((i, line) :: rest) =
      (if pyStrip line = "" then headerOccAux rest
       else if (pyStrip line).toList.head? = some '#' ∧ ¬ pyStartswith line "##" then
         headerOccAux rest
       else if pyStartswith line "\t" then headerOccAux rest
       else if charIn ':' line ∧ ¬ charIn '=' line then
         (match targetHead line with
           | some head => (pySplit head).map (fun nm => (nm, i, line))
           | none => []) ++ headerOccAux ((skipCont (pyStrip line) rest).getD [])
       else headerOccAux rest) := by
  simp only [headerOccAux]

/-- The scanner's mapping equals folding its emitted header occurrences
through `setdefault`: `ctlAux` refines `headerOccAux`. -/
theorem ctlAux_eq_applyOccs :
    ∀ (ps : List (Nat × String)) (m : List (String × Nat × String)),
      ctlAux ps m = applyOccs (headerOccAux ps) m := by
  intro ps m
  induction ps, m using ctlAux.induct with
  | case1 m => simp [ctlAux, headerOccAux, applyOccs]
  | case2 i line rest m =>
    rename_i s h1 ih
    have h1' : pyStrip line = "" := h1
    rw [ctlAux_cons, headerOccAux_cons, if_pos h1', if_pos h1']
    exact ih
  | case3 i line rest m =>
    rename_i s h1 h2 ih
    have h1' : ¬ pyStrip line = "" := h1
    have h2' : (pyStrip line).toList.head? = some '#' ∧ ¬ pyStartswith line "##" = true := h2
    rw [ctlAux_cons, headerOccAux_cons, if_neg h1', if_neg h1', if_pos h2', if_pos h2']
    exact ih
  | case4 i line rest m =>
    rename_i s h1 h2 h3 ih
    have h1' : ¬ pyStrip line = "" := h1
    have h2' : ¬ ((pyStrip line).toList.head? = some '#' ∧ ¬ pyStartswith line "##" = true) := h2
    have h3' : pyStartswith line "\t" = true := h3
    rw [ctlAux_cons, headerOccAux_cons, if_neg h1', if_neg h1', if_neg h2', if_neg h2',
      if_pos h3', if_pos h3']
    exact ih
  | case5 i line rest m =>
    rename_i s h1 h2 h3 h4 m' ih
    have h1' : ¬ pyStrip line = "" := h1
    have h2' : ¬ ((pyStrip line).toList.head? = some '#' ∧ ¬ pyStartswith line "##" = true) := h2
    have h3' : ¬ pyStartswith line "\t" = true := h3
    have h4' : charIn ':' line = true ∧ ¬ charIn '=' line = true := h4
    rw [ctlAux_cons, headerOccAux_cons, if_neg h1', if_neg h1', if_neg h2', if_neg h2',
      if_neg h3', if_neg h3', if_pos h4', if_pos h4']
    rw [applyOccs_append]
    have hm : applyOccs
        (match targetHead line with
          | some head => (pySplit head).map (fun nm => (nm, i, line))
          | none => []) m =
        (match targetHead line with
          | some head => (pySplit head).foldl (fun acc nm => setdefault acc nm (i, line)) m
          | none => m) := by
      cases targetHead line with
      | none => simp [applyOccs]
      | some head => simp only [applyOccs, List.foldl_map]
    rw [hm]
    exact ih
  | case6 i line rest m =>
    rename_i s h1 h2 h3 h4 ih
    have h1' : ¬ pyStrip line = "" := h1
    have h2' : ¬ ((pyStrip line).toList.head? = some '#' ∧ ¬ pyStartswith line "##" = true) := h2
    have h3' : ¬ pyStartswith line "\t" = true := h3
    have h4' : ¬ (charIn ':' line = true ∧ ¬ charIn '=' line = true) := h4
    rw [ctlAux_cons, headerOccAux_cons, if_neg h1', if_neg h1', if_neg h2', if_neg h2',
      if_neg h3', if_neg h3', if_neg h4', if_neg h4']
    exact ih

/-- Claim C3: the line-provenance indexer maps a name to the line number
and text of the first rule-header occurrence that declares it — `find?`
over the scan-ordered occurrence sequence — so a later redeclaration of
the same name never overwrites the recorded provenance, and a name that
never occurs as a header target is absent from the mapping. -/
theorem compute_target_lines_spec (lines : List String) (name : String) :
    alookup (_compute_target_lines lines) name =
      ((headerOcc lines).find? (fun o => o.1 == name)).map (fun o => o.2) := by
  unfold _compute_target_lines headerOcc
  rw [ctlAux_eq_applyOccs, alookup_applyOccs]
  rfl

/-- Every `space instead of tab` finding of the whitespace scan is
attributed either to the first scanned line (with the incoming previous
line not ending in a backslash) or to a line whose predecessor in the
scanned list does not end in a backslash after right-trimming. -/
theorem spacesNew_spaceTab_origin :
    ∀ (ls : List String) (prev : String) (i : Nat) (e : LintError),
      e ∈ spacesNew i prev ls → e.error_type = "space instead of tab" →
      ∀ j, e.line_number = some j →
        (j = i ∧ pyEndswith (pyRstrip prev) "\\" = false) ∨
          (∃ k l', j = i + k + 1 ∧ ls[k]? = some l' ∧ pyEndswith (pyRstrip l') "\\" = false) := by
  intro ls
  induction ls with
  | nil => intro prev i e he; simp [spacesNew] at he
  | cons line rest ih =>
    intro prev i e he het j hj
    simp only [spacesNew, List.mem_append] at he
    rcases he with (he | he) | he
    · exfalso
      split at he
      · rcases List.mem_singleton.mp he with rfl
        simp [mkTrailingError, _create_error] at het
      · cases he
    · split at he
      · cases he
      · split at he
        · rcases List.mem_singleton.mp he with rfl
          simp only [mkSpaceTabError, _create_error, Option.some_inj] at hj
          left
          refine ⟨hj.symm, ?_⟩
          rename_i hcond _
          cases hb : pyEndswith (pyRstrip prev) "\\"
          · rfl
          · exact absurd hb hcond
        · cases he
    · rcases ih line (i + 1) e he het j hj with ⟨hj0, hc⟩ | ⟨k, l', hjk, hget, hc⟩
      · right
        exact ⟨0, line, by omega, by simp, hc⟩
      · right
        exact ⟨k + 1, l', by omega, by simpa using hget, hc⟩

/-- Every line with trailing whitespace yields its `trailing spaces`
finding, wherever it sits in the scanned list and whatever precedes it. -/
theorem spacesNew_trailing_mem :
    ∀ (ls : List String) (prev : String) (i k : Nat) (l' : String),
      ls[k]? = some l' → pyRstrip l' ≠ l' →
      mkTrailingError (i + k) l' ∈ spacesNew i prev ls := by
  intro ls
  induction ls with
  | nil => intro prev i k l' hget; simp at hget
  | cons line rest ih =>
    intro prev i k l' hget hne
    cases k with
    | zero =>
      simp only [List.getElem?_cons_zero, Option.some_inj] at hget
      subst hget
      simp only [spacesNew, List.mem_append]
      left; left
      rw [if_pos hne]
      simp
    | succ k =>
      simp only [List.getElem?_cons_succ] at hget
      have := ih line (i + 1) k l' hget hne
      simp only [spacesNew, List.mem_append]
      right
      rw [show i + (k + 1) = i + 1 + k from by omega]
      exact this

/-- Claim C5: in `validate_spaces`, a line immediately following a line
whose right-trimmed form ends in a backslash never produces a `space
instead of tab` finding (even when it starts with spaces), yet that
same continuation line still produces its `trailing spaces` finding
whenever it carries trailing whitespace. -/
theorem validate_spaces_continuation (lines : List String) (errors : List LintError)
    (i : Nat) (li lc : String) (hi : lines[i]? = some li) (hc : lines[i + 1]? = some lc)
    (hb : pyEndswith (pyRstrip li) "\\" = true) :
    (∀ e ∈ ((validate_spaces lines errors).1).drop errors.length,
        e.error_type = "space instead of tab" → e.line_number ≠ some (i + 1)) ∧
      (pyRstrip lc ≠ lc →
        mkTrailingError (i + 1) lc ∈ ((validate_spaces lines errors).1).drop errors.length) := by
  have hchar : (validate_spaces lines errors).1 = errors ++ spacesNew 0 "" lines := by
    show (vsAux 0 "" lines errors true).1 = _
    rw [vsAux_eq]
  rw [hchar, List.drop_left]
  constructor
  · intro e he het hln
    rcases spacesNew_spaceTab_origin lines "" 0 e he het (i + 1) hln with
      ⟨hj, _⟩ | ⟨k, l', hjk, hget, hcond⟩
    · omega
    · have hk : k = i := by omega
      subst hk
      rw [hi] at hget
      rcases Option.some_inj.mp hget with rfl
      rw [hcond] at hb
      cases hb
  · intro hne
    have := spacesNew_trailing_mem lines "" 0 (i + 1) lc hc hne
    simpa using this

/-- Claim C5 witnessed on a two-line input: a backslash-terminated first
line and an indented continuation line with trailing spaces. -/
theorem validate_spaces_continuation_witness :
    (["a \\", "  b  "][0]? = some "a \\" ∧ ["a \\", "  b  "][1]? = some "  b  " ∧
        pyEndswith (pyRstrip "a \\") "\\" = true ∧ pyRstrip "  b  " ≠ "  b  ") ∧
      (∀ e ∈ ((validate_spaces ["a \\", "  b  "] []).1).drop (List.length ([] : List LintError)),
          e.error_type = "space instead of tab" → e.line_number ≠ some 1) ∧
      mkTrailingError 1 "  b  " ∈ ((validate_spaces ["a \\", "  b  "] []).1).drop
        (List.length ([] : List LintError)) :=
  ⟨⟨by decide, by decide, by decide, by decide⟩,
    (validate_spaces_continuation ["a \\", "  b  "] [] 0 "a \\" "  b  "
        (by decide) (by decide) (by decide)).1,
    (validate_spaces_continuation ["a \\", "  b  "] [] 0 "a \\" "  b  "
        (by decide) (by decide) (by decide)).2 (by decide)⟩

/-- The C4 counterexample findings: category `a` first carries the line
number 2^63 (one above `sys.maxsize`), category `b` has no line number
at all. -/
def maxsizeCex : List LintError :=
  [⟨"a", "m", some 9223372036854775808, none⟩, ⟨"b", "m", none, none⟩]

/-- Claim C4 counterexample: every finding of category `b` lacks a line
number, yet `b` does not sort last — the `sys.maxsize` sentinel the
code uses for such categories compares below `a`'s genuine line number
2^63, so the summary is rendered `b: 1, a: 1` instead of the claimed
`a: 1, b: 1`. -/
theorem summarize_errors_counterexample :
    ((∀ e ∈ maxsizeCex, e.error_type = "b" → e.line_number = none) ∧
        counterKeys maxsizeCex = ["a", "b"]) ∧
      summarize_errors maxsizeCex = "b: 1, a: 1" ∧
      summarize_errors maxsizeCex ≠ "a: 1, b: 1" := by
  decide

/-- The specification ordering on categories: by the line number of the
category's first finding that carries one, with categories whose
findings all lack line numbers (no such finding) sorting last; ties
keep the insertion order through the stable sort. -/
def specCatLe (errors : List LintError) (a b : String) : Bool :=
  match first_seen errors a, first_seen errors b with
  | _, none => true
  | none, some _ => false
  | some x, some y => x ≤ y

/-- A recorded first-seen line number comes from some finding, so it is
subject to any bound on the findings' line numbers. -/
theorem first_seen_lt (errors : List LintError)
    (hbound : ∀ e ∈ errors, ∀ n, e.line_number = some n → n < pyMaxsize)
    (ty : String) (v : Nat) (h : first_seen errors ty = some v) : v < pyMaxsize := by
  unfold first_seen at h
  cases hf : errors.find? (fun e => e.error_type = ty && e.line_number.isSome) with
  | none => rw [hf] at h; cases h
  | some e =>
    rw [hf] at h
    exact hbound e (List.mem_of_find?_eq_some hf) v h

/-- Below the sentinel, the code's `sys.maxsize` key order coincides with
the specification order. -/
theorem summaryKey_le_agree (errors : List LintError)
    (hbound : ∀ e ∈ errors, ∀ n, e.line_number = some n → n < pyMaxsize) :
    ∀ a b, (decide (summaryKey errors a ≤ summaryKey errors b)) = specCatLe errors a b := by
  intro a b
  unfold summaryKey specCatLe
  cases ha : first_seen errors a with
  | none =>
    cases hb : first_seen errors b with
    | none => simp
    | some y =>
      have hy := first_seen_lt errors hbound b y hb
      simp only [Option.getD_none, Option.getD_some]
      rw [decide_eq_false (by omega)]
  | some x =>
    cases hb : first_seen errors b with
    | none =>
      have hx := first_seen_lt errors hbound a x ha
      simp only [Option.getD_none, Option.getD_some]
      rw [decide_eq_true (by omega)]
    | some y => simp

/-- Insertions by comparisons that agree pointwise coincide. -/
theorem insertBy_congr (le1 le2 : String → String → Bool)
    (h : ∀ a b, le1 a b = le2 a b) (x : String) :
    ∀ l, insertBy le1 x l = insertBy le2 x l := by
  intro l
  induction l with
  | nil => rfl
  | cons y ys ih => simp only [insertBy, h x y, ih]

/-- Sorts by comparisons that agree pointwise coincide. -/
theorem sortBy_congr (le1 le2 : String → String → Bool)
    (h : ∀ a b, le1 a b = le2 a b) :
    ∀ l, sortBy le1 l = sortBy le2 l := by
  intro l
  induction l with
  | nil => rfl
  | cons x xs ih => simp only [sortBy, ih, insertBy_congr le1 le2 h x]

/-- Claim C4 (amended): whenever every line number is below
`sys.maxsize`, `summarize_errors` renders one `<category>: <count>`
pair per distinct category — in order of first occurrence before
sorting — joined by `", "`, with the count the number of findings of
that category, and the categories stably sorted by the line number of
each category's first finding that carries one, categories whose
findings all lack line numbers sorting last in insertion order.  The
bound is the amendment: a line number at or above the sentinel
`sys.maxsize` breaks the sort-last guarantee, and the ordering key is
the first finding *with* a line number, as the code's `first_seen`
table records. -/
theorem summarize_errors_spec (errors : List LintError)
    (hbound : ∀ e ∈ errors, ∀ n, e.line_number = some n → n < pyMaxsize) :
    summarize_errors errors =
      String.intercalate ", "
        ((sortBy (specCatLe errors) (counterKeys errors)).map
          (fun ty => ty ++ ": " ++
            Nat.repr ((errors.filter (fun e => e.error_type = ty)).length))) := by
  unfold summarize_errors
  rw [sortBy_congr _ _ (summaryKey_le_agree errors hbound) (counterKeys errors)]
  rfl

/-- Claim C4 amended, witnessed on three findings over two categories
with an out-of-order first line number. -/
theorem summarize_errors_spec_witness :
    (∀ e ∈ [(⟨"x", "m", some 3, none⟩ : LintError), ⟨"y", "m", none, none⟩,
        ⟨"x", "m", some 1, none⟩], ∀ n, e.line_number = some n → n < pyMaxsize) ∧
      summarize_errors [⟨"x", "m", some 3, none⟩, ⟨"y", "m", none, none⟩,
          ⟨"x", "m", some 1, none⟩] =
        String.intercalate ", "
          ((sortBy
              (specCatLe [⟨"x", "m", some 3, none⟩, ⟨"y", "m", none, none⟩,
                ⟨"x", "m", some 1, none⟩])
              (counterKeys [⟨"x", "m", some 3, none⟩, ⟨"y", "m", none, none⟩,
                ⟨"x", "m", some 1, none⟩])).map
            (fun ty => ty ++ ": " ++
              Nat.repr (([(⟨"x", "m", some 3, none⟩ : LintError), ⟨"y", "m", none, none⟩,
                  ⟨"x", "m", some 1, none⟩].filter
                  (fun e => e.error_type = ty)).length))) :=
  ⟨by decide,
    summarize_errors_spec
      [⟨"x", "m", some 3, none⟩, ⟨"y", "m", none, none⟩, ⟨"x", "m", some 1, none⟩]
      (by decide)⟩
